import Mathlib

/-!
Verification of the skill-tree planner's validation/allocation engine.

The definitions below are a shallow embedding of the engine source
(`state.js`, `actions.js`, `validation_engine.js`).  JavaScript arrays are
Lean lists, JS numbers used as integer point quantities are `Int`, ranks and
thresholds (always non-negative in the engine) are `Nat`, and the string
status/logic enums are kept as the source keeps them.  Mutation of the
`JSON`-cloned state is modelled by explicit state passing: every action takes
the state and returns the new state (returning the input unchanged models the
source's `return state` rejection path).
-/

namespace SkillTree

/-- A directed prerequisite edge, `create_connection` in `state.js`.
`logic` is absent (`none`) on a freshly created connection; `add_connection`
may set it to `"AND"` or `"OR"`. -/
structure Connection where
  id : String
  from_node_id : String
  to_node_id : String
  required_rank : Nat
  logic : Option String
deriving Repr, DecidableEq

/-- A skill node, `create_node` in `state.js`, restricted to the fields the
validation/allocation engine reads (presentation fields such as `name`,
`position`, `icon`, `tags` are never consulted by the engine). -/
structure Node where
  id : String
  max_rank : Nat
  current_rank : Nat
  cost_per_rank : List Int
  prerequisite_logic : String
  prerequisite_threshold : Nat
deriving Repr, DecidableEq

/-- A tree's point pool (`point_pool` in `create_tree`). -/
structure PointPool where
  total : Int
  spent : Int
deriving Repr, DecidableEq

/-- One skill tree: nodes, connections and a point pool. -/
structure Tree where
  id : String
  point_pool : PointPool
  nodes : List Node
  connections : List Connection
deriving Repr, DecidableEq

/-- Project settings read by the engine (`project.settings`). -/
structure Settings where
  allow_refunds : Bool
  cascade_refunds : Bool
deriving Repr, DecidableEq

/-- The project: trees plus settings (`state.project`). -/
structure Project where
  settings : Settings
  trees : List Tree
deriving Repr, DecidableEq

/-- UI state read by the engine: only the `mode` string (`"edit"`/`"play"`). -/
structure UIState where
  mode : String
deriving Repr, DecidableEq

/-- The application state as the engine sees it. -/
structure State where
  project : Project
  ui_state : UIState
deriving Repr, DecidableEq

/-- Replaces the first element satisfying `p` by its image under `f`; models
the source pattern `findIndex` + in-place mutation of that element. -/
def replace_first (p : α → Bool) (f : α → α) : List α → List α
  | [] => []
  | x :: xs => if p x then f x :: xs else x :: replace_first p f xs

/-- `find_tree` from `state.js`: first tree whose `id` matches. -/
def find_tree (s : State) (tree_id : String) : Option Tree :=
  s.project.trees.find? (fun t => t.id == tree_id)

/-- `find_node` from `state.js`: looks up the tree, then the first node whose
`id` matches. -/
def find_node (s : State) (tree_id node_id : String) : Option Node :=
  match find_tree s tree_id with
  | none => none
  | some tree => tree.nodes.find? (fun n => n.id == node_id)

/-- Replaces (the first occurrence of) tree `tree_id` in the state by `tr`;
models mutation through the reference returned by `find_tree`/`findIndex`. -/
def set_first_tree (s : State) (tree_id : String) (tr : Tree) : State :=
  { s with project :=
      { s.project with
          trees := replace_first (fun t => t.id == tree_id) (fun _ => tr) s.project.trees } }

-- ===========================================================================
-- Prerequisite evaluator (validation_engine.js)
-- ===========================================================================

/-- Sum of `current_rank` over the source nodes (that exist) of a connection
list: the accumulation loop of the `SUM` branch of `check_prerequisites`. -/
def sum_incoming_rank (s : State) (tree_id : String) : List Connection → Nat
  | [] => 0
  | c :: cs =>
    (match find_node s tree_id c.from_node_id with
     | some from_node => from_node.current_rank
     | none => 0) + sum_incoming_rank s tree_id cs

/-- The body of `check_prerequisites` as executed for a node whose
`prerequisite_logic` is `"SUM"`.  In the source, `is_connection_satisfied`
recursively calls `check_prerequisites(connection.to_node_id)` when the target
node's logic is `"SUM"`; that call necessarily takes the `SUM` branch (the
target node it re-finds is the very node whose logic was just read), so the
recursion bottoms out after one step and is inlined here.
`check_prerequisites_sum_inline` below proves the inlining faithful. -/
def check_prereq_sum (s : State) (tree_id node_id : String) : Bool :=
  match find_tree s tree_id with
  | none => false
  | some tree =>
    let incoming := tree.connections.filter (fun c => c.to_node_id == node_id)
    if incoming.isEmpty then true
    else
      match find_node s tree_id node_id with
      | none => false
      | some node =>
        let threshold := if node.prerequisite_threshold = 0 then 1 else node.prerequisite_threshold
        sum_incoming_rank s tree_id incoming ≥ threshold

/-- `is_connection_satisfied` from `validation_engine.js`.  Both endpoints
must resolve; a `SUM`-target connection is satisfied iff the whole group is;
otherwise the source rank is compared against the per-edge `required_rank`. -/
def is_connection_satisfied (s : State) (tree_id : String) (conn : Connection) : Bool :=
  match find_node s tree_id conn.to_node_id with
  | none => false
  | some to_node =>
    match find_node s tree_id conn.from_node_id with
    | none => false
    | some from_node =>
      if to_node.prerequisite_logic == "SUM" then
        check_prereq_sum s tree_id conn.to_node_id
      else
        from_node.current_rank ≥ conn.required_rank

/-- `check_prerequisites` from `validation_engine.js`.  An empty incoming set
is always satisfied; `""` (a JS falsy string) defaults to `"AND"`; a zero
`prerequisite_threshold` (JS falsy) defaults to `1`; a logic string other than
`AND`/`OR`/`SUM` falls through to the trailing `return true`. -/
def check_prerequisites (s : State) (tree_id node_id : String) : Bool :=
  match find_tree s tree_id with
  | none => false
  | some tree =>
    let incoming := tree.connections.filter (fun c => c.to_node_id == node_id)
    if incoming.isEmpty then true
    else
      match find_node s tree_id node_id with
      | none => false
      | some node =>
        let logic := if node.prerequisite_logic = "" then "AND" else node.prerequisite_logic
        if logic = "AND" then incoming.all (fun c => is_connection_satisfied s tree_id c)
        else if logic = "OR" then incoming.any (fun c => is_connection_satisfied s tree_id c)
        else if logic = "SUM" then
          let threshold := if node.prerequisite_threshold = 0 then 1 else node.prerequisite_threshold
          sum_incoming_rank s tree_id incoming ≥ threshold
        else true

/-- Faithfulness of the `SUM` inlining: on a node whose stored logic is
`"SUM"`, `check_prerequisites` computes exactly `check_prereq_sum`, so
modelling the source's recursive call by `check_prereq_sum` is exact. -/
theorem check_prerequisites_sum_inline (s : State) (tree_id node_id : String)
    (node : Node) (hn : find_node s tree_id node_id = some node)
    (hl : node.prerequisite_logic = "SUM") :
    check_prerequisites s tree_id node_id = check_prereq_sum s tree_id node_id := by
  cases htree : find_tree s tree_id with
  | none =>
    unfold find_node at hn
    simp [htree] at hn
  | some tree =>
    have hn' : tree.nodes.find? (fun n => n.id == node_id) = some node := by
      unfold find_node at hn
      simpa [htree] using hn
    unfold check_prerequisites check_prereq_sum find_node
    simp only [htree, hn', hl]
    by_cases hinc : (tree.connections.filter (fun c => c.to_node_id == node_id)).isEmpty
    · simp [hinc]
    · simp [hinc]

-- ===========================================================================
-- Status deriver and allocation checks (validation_engine.js)
-- ===========================================================================

/-- The closed `NODE_STATUS` enum of `validation_engine.js`. -/
inductive NodeStatus where
  | locked
  | unlockable
  | active
  | maxed
  | invalid
deriving Repr, DecidableEq

/-- `get_node_status` from `validation_engine.js`. -/
def get_node_status (s : State) (tree_id node_id : String) : NodeStatus :=
  match find_tree s tree_id with
  | none => NodeStatus.invalid
  | some _ =>
    match find_node s tree_id node_id with
    | none => NodeStatus.invalid
    | some node =>
      if ¬check_prerequisites s tree_id node_id then NodeStatus.locked
      else if node.current_rank = 0 then NodeStatus.unlockable
      else if node.current_rank ≥ node.max_rank then NodeStatus.maxed
      else NodeStatus.active

/-- `get_allocation_cost` from `validation_engine.js`:
`cost_per_rank[min(current_rank, length - 1)]`.  The clamped index is always
in range for a non-empty `cost_per_rank` (the data model's invariant), so the
`getD` default `0` is never consulted for well-formed nodes. -/
def get_allocation_cost (node : Node) : Int :=
  node.cost_per_rank.getD (min node.current_rank (node.cost_per_rank.length - 1)) 0

/-- The `{ can_allocate, reason }` record returned by `can_allocate_point`. -/
structure AllocCheck where
  can_allocate : Bool
  reason : Option String
deriving Repr, DecidableEq

/-- `can_allocate_point` from `validation_engine.js`.  Edit mode checks only
the rank ceiling and the budget; play mode first derives the node status and
rejects `LOCKED` / `MAXED` / `INVALID`, then checks the budget. -/
def can_allocate_point (s : State) (tree_id node_id : String) : AllocCheck :=
  match find_tree s tree_id with
  | none => ⟨false, some "Tree not found"⟩
  | some tree =>
    match find_node s tree_id node_id with
    | none => ⟨false, some "Node not found"⟩
    | some node =>
      if s.ui_state.mode = "edit" then
        if node.current_rank ≥ node.max_rank then ⟨false, some "Maximum rank reached"⟩
        else if tree.point_pool.total - tree.point_pool.spent < get_allocation_cost node then
          ⟨false, some "Not enough points"⟩
        else ⟨true, none⟩
      else
        match get_node_status s tree_id node_id with
        | NodeStatus.locked => ⟨false, some "Prerequisites not met"⟩
        | NodeStatus.maxed => ⟨false, some "Maximum rank reached"⟩
        | NodeStatus.invalid => ⟨false, some "Invalid node state"⟩
        | _ =>
          if tree.point_pool.total - tree.point_pool.spent < get_allocation_cost node then
            ⟨false, some "Not enough points"⟩
          else ⟨true, none⟩

-- ===========================================================================
-- Allocation ledger (actions.js)
-- ===========================================================================

/-- Accumulated cost of the first `rank` ranks of a node:
`sum over i < rank of cost_per_rank[min(i, length - 1)]`.  This is both the
per-node summand of `calculate_spent_points` and the amount the cascade
refunds when it forces a node from `rank` back to `0`. -/
def rank_cost (costs : List Int) : Nat → Int
  | 0 => 0
  | r + 1 => rank_cost costs r + costs.getD (min r (costs.length - 1)) 0

/-- `allocate_point` from `actions.js`.  Note that it checks only the rank
ceiling and the budget — prerequisites are *not* re-checked here; the click
handler in `interactions.js` consults `can_allocate_point` before
dispatching. -/
def allocate_point (s : State) (tree_id node_id : String) : State :=
  match find_tree s tree_id with
  | none => s
  | some tree =>
    match tree.nodes.find? (fun n => n.id == node_id) with
    | none => s
    | some node =>
      if node.current_rank ≥ node.max_rank then s
      else
        let cost := node.cost_per_rank.getD (min node.current_rank (node.cost_per_rank.length - 1)) 0
        if tree.point_pool.total - tree.point_pool.spent < cost then s
        else
          set_first_tree s tree_id
            { tree with
                nodes := replace_first (fun n => n.id == node_id)
                  (fun n => { n with current_rank := n.current_rank + 1 }) tree.nodes,
                point_pool := { tree.point_pool with spent := tree.point_pool.spent + cost } }

-- ===========================================================================
-- Cascade resolver (apply_cascade_refunds in actions.js)
-- ===========================================================================

/-- One iteration of the inner `for` loop of `apply_cascade_refunds`: examine
the node at index `i` of the (current) tree; if it has allocated ranks but its
prerequisites are no longer met, refund all its ranks (subtracting the full
accumulated cost from `spent`) and set the changed flag.  Processing is by
index because the source mutates the node object in place while iterating. -/
def cascade_step (tree_id : String) (acc : State × Bool) (i : Nat) : State × Bool :=
  match find_tree acc.1 tree_id with
  | none => acc
  | some tree =>
    match tree.nodes.get? i with
    | none => acc
    | some node =>
      if node.current_rank > 0 ∧ ¬check_prerequisites acc.1 tree_id node.id then
        (set_first_tree acc.1 tree_id
          { tree with
              nodes := tree.nodes.set i { node with current_rank := 0 },
              point_pool := { tree.point_pool with
                spent := tree.point_pool.spent - rank_cost node.cost_per_rank node.current_rank } },
         true)
      else acc

/-- One full pass of the `while (changed)` loop over all node indices. -/
def cascade_pass (s : State) (tree_id : String) : State × Bool :=
  match find_tree s tree_id with
  | none => (s, false)
  | some tree => (List.range tree.nodes.length).foldl (cascade_step tree_id) (s, false)

/-- Total allocated rank count of the tree: the strictly decreasing measure
of the fixpoint loop. -/
def tree_total_rank (s : State) (tree_id : String) : Nat :=
  match find_tree s tree_id with
  | none => 0
  | some tree => (tree.nodes.map (fun n => n.current_rank)).sum

/-- The `while (changed)` loop, driven by fuel.  Each changing pass strictly
decreases `tree_total_rank`, so `tree_total_rank + 1` passes always reach the
fixpoint (proved below); the fuel formulation keeps the definition
kernel-computable. -/
def cascade_go (tree_id : String) : Nat → State → State
  | 0, s => s
  | fuel + 1, s =>
    let r := cascade_pass s tree_id
    if r.2 then cascade_go tree_id fuel r.1 else r.1

/-- `apply_cascade_refunds` from `actions.js`: run full passes until a pass
changes nothing. -/
def apply_cascade_refunds (s : State) (tree_id : String) : State :=
  cascade_go tree_id (tree_total_rank s tree_id + 1) s

/-- `refund_point` from `actions.js`.  Rejected (input returned unchanged)
when refunds are disabled, the tree or node is missing, or the node has no
allocated rank; otherwise decrements the rank, returns the refunded rank's
cost to the pool, and runs the cascade resolver unless in edit mode with
cascading disabled. -/
def refund_point (s : State) (tree_id node_id : String) : State :=
  if ¬s.project.settings.allow_refunds then s
  else
    match find_tree s tree_id with
    | none => s
    | some tree =>
      match tree.nodes.find? (fun n => n.id == node_id) with
      | none => s
      | some node =>
        if node.current_rank = 0 then s
        else
          let refund := node.cost_per_rank.getD
            (min (node.current_rank - 1) (node.cost_per_rank.length - 1)) 0
          let s1 := set_first_tree s tree_id
            { tree with
                nodes := replace_first (fun n => n.id == node_id)
                  (fun n => { n with current_rank := n.current_rank - 1 }) tree.nodes,
                point_pool := { tree.point_pool with spent := tree.point_pool.spent - refund } }
          if s.ui_state.mode ≠ "edit" ∨ s.project.settings.cascade_refunds then
            apply_cascade_refunds s1 tree_id
          else s1

-- ===========================================================================
-- Connection actions (actions.js)
-- ===========================================================================

/-- The `options` argument of `add_connection`. -/
structure ConnectionOptions where
  from_node_id : String
  to_node_id : String
  logic : Option String
  required_rank : Option Nat
deriving Repr, DecidableEq

/-- `add_connection` from `actions.js`.  Rejects (returns the input state)
when either endpoint id is missing/empty, the tree is not found, either
endpoint does not name an existing node, or a connection with the same
ordered `(from, to)` pair already exists.  The source generates a fresh id
impurely (`generate_id`); the id is taken as an argument here, which the
rejection and invariant claims never depend on. -/
def add_connection (s : State) (tree_id : String) (fresh_id : String)
    (options : ConnectionOptions) : State :=
  if options.from_node_id = "" ∨ options.to_node_id = "" then s
  else
    match find_tree s tree_id with
    | none => s
    | some tree =>
      if ¬tree.nodes.any (fun n => n.id == options.from_node_id) ∨
         ¬tree.nodes.any (fun n => n.id == options.to_node_id) then s
      else if tree.connections.any (fun c =>
          c.from_node_id == options.from_node_id ∧ c.to_node_id == options.to_node_id) then s
      else
        let base : Connection :=
          { id := fresh_id
            from_node_id := options.from_node_id
            to_node_id := options.to_node_id
            required_rank := 1
            logic := none }
        let with_logic :=
          match options.logic with
          | some l => if l = "AND" ∨ l = "OR" then { base with logic := some l } else base
          | none => base
        let conn :=
          match options.required_rank with
          | some r => { with_logic with required_rank := r }
          | none => with_logic
        set_first_tree s tree_id { tree with connections := tree.connections ++ [conn] }

-- ===========================================================================
-- Structural validator (validation_engine.js)
-- ===========================================================================

/-- `calculate_spent_points` from `validation_engine.js`: recomputes the
implied spend from every node's `current_rank` and `cost_per_rank`. -/
def calculate_spent_points (tree : Tree) : Int :=
  (tree.nodes.map (fun n => rank_cost n.cost_per_rank n.current_rank)).sum

/-- First index of `a` in the list (`Array.prototype.indexOf`); returns the
list's length when absent (the source only uses it on present elements). -/
def idx_of (a : String) : List String → Nat
  | [] => 0
  | x :: xs => if x == a then 0 else idx_of a xs + 1

/-- Machine-readable error codes of `validate_tree`/`validate_state`, with
the `details` payload each carries in the source. -/
inductive VError where
  | tree_not_found
  | duplicate_node_id (node_id : String)
  | invalid_connection_source (connection_id from_node_id : String)
  | invalid_connection_target (connection_id to_node_id : String)
  | cyclic_dependency (cycle : List String)
deriving Repr, DecidableEq

/-- Machine-readable warning codes of `validate_tree`. -/
inductive VWarning where
  | point_pool_mismatch (stored calculated : Int)
  | orphaned_node (node_id : String)
deriving Repr, DecidableEq

/-- The `{ is_valid, errors, warnings }` record of `validate_tree`
(`blocked_actions` is always empty in the source and omitted). -/
structure ValidationResult where
  is_valid : Bool
  errors : List VError
  warnings : List VWarning
deriving Repr, DecidableEq

-- ===========================================================================
-- Cycle detection (detect_cycle in validation_engine.js)
-- ===========================================================================

/-- The adjacency map built at the top of `detect_cycle`: node ids map to the
targets of their outgoing connections, unknown ids map to `[]` (the source's
`adjacency[node_id] || []`). -/
def adjacency (tree : Tree) (id : String) : List String :=
  if tree.nodes.any (fun n => n.id == id) then
    (tree.connections.filter (fun c => c.from_node_id == id)).map (fun c => c.to_node_id)
  else []

mutual

/-- The recursive `dfs` of `detect_cycle`.  `visited` is the global visited
set, `path` the recursion stack in visit order (the source's `rec_stack` set
always holds exactly the elements of `path`: every `add`/`push` and
`delete`/`pop` is paired, so stack membership is modelled as `path`
membership).  Entering a node pushes it; exiting (no cycle found below it)
pops it, which explicit state passing makes implicit.  One unit of fuel is
consumed per visit and per neighbour-list step, so the fuel only bounds the
depth of the nested call chain; visits along a chain are on pairwise distinct
ids (each is unvisited when entered), every visitable id is a node id or a
connection target, and the neighbour steps under one visit are bounded by its
out-degree, so the `nodes + 2 * connections + 2` fuel supplied by
`detect_cycle` is never exhausted. -/
def dfs_visit (adjf : String → List String) :
    Nat → List String → List String → String → List String × Option (List String)
  | 0, visited, _, _ => (visited, none)
  | fuel + 1, visited, path, node_id =>
    dfs_children adjf fuel (node_id :: visited) (path ++ [node_id]) (adjf node_id)

/-- The `for (const neighbor of adjacency[node_id])` loop of `dfs`: an
unvisited neighbour is explored recursively; a neighbour on the recursion
stack yields the cycle `path.slice(path.indexOf(neighbor))`. -/
def dfs_children (adjf : String → List String) :
    Nat → List String → List String → List String → List String × Option (List String)
  | _, visited, _, [] => (visited, none)
  | 0, visited, _, _ :: _ => (visited, none)
  | fuel + 1, visited, path, n :: rest =>
    if visited.contains n then
      if path.contains n then (visited, some (path.drop (idx_of n path)))
      else dfs_children adjf fuel visited path rest
    else
      match dfs_visit adjf fuel visited path n with
      | (v', some c) => (v', some c)
      | (v', none) => dfs_children adjf fuel v' path rest
termination_by structural fuel => fuel

end

/-- The outer `for (const node of tree.nodes)` loop of `detect_cycle`,
starting a DFS from every not-yet-visited node. -/
def detect_cycle_go (adjf : String → List String) (fuel : Nat)
    (visited : List String) : List Node → Option (List String)
  | [] => none
  | nd :: rest =>
    if visited.contains nd.id then detect_cycle_go adjf fuel visited rest
    else
      match dfs_visit adjf fuel visited [] nd.id with
      | (_, some c) => some c
      | (v', none) => detect_cycle_go adjf fuel v' rest

/-- `detect_cycle` from `validation_engine.js`. -/
def detect_cycle (tree : Tree) : Option (List String) :=
  detect_cycle_go (adjacency tree) (tree.nodes.length + 2 * tree.connections.length + 2) []
    tree.nodes

/-- `validate_tree` from `validation_engine.js`: duplicate node ids, dangling
connection endpoints, a cycle witness, point-pool drift and orphaned nodes,
in the source's emission order. -/
def validate_tree (s : State) (tree_id : String) : ValidationResult :=
  match find_tree s tree_id with
  | none => ⟨false, [VError.tree_not_found], []⟩
  | some tree =>
    let node_ids := tree.nodes.map (fun n => n.id)
    let dup_errors := (node_ids.enum.filter (fun p => idx_of p.2 node_ids ≠ p.1)).map
      (fun p => VError.duplicate_node_id p.2)
    let conn_errors := tree.connections.flatMap (fun c =>
      (if ¬node_ids.contains c.from_node_id then
        [VError.invalid_connection_source c.id c.from_node_id] else []) ++
      (if ¬node_ids.contains c.to_node_id then
        [VError.invalid_connection_target c.id c.to_node_id] else []))
    let cycle_errors :=
      match detect_cycle tree with
      | some cy => [VError.cyclic_dependency cy]
      | none => []
    let errors := dup_errors ++ conn_errors ++ cycle_errors
    let calculated := calculate_spent_points tree
    let mismatch :=
      if calculated ≠ tree.point_pool.spent then
        [VWarning.point_pool_mismatch tree.point_pool.spent calculated] else []
    let orphans :=
      if tree.nodes.length > 1 ∧ tree.connections.length > 0 then
        (tree.nodes.filter (fun n =>
          ¬tree.connections.any (fun c => c.to_node_id == n.id) ∧
          ¬tree.connections.any (fun c => c.from_node_id == n.id))).map
          (fun n => VWarning.orphaned_node n.id)
      else []
    ⟨errors.isEmpty, errors, mismatch ++ orphans⟩

-- ===========================================================================
-- Reachability (check_tree_reachability in validation_engine.js)
-- ===========================================================================

/-- Processing of one outgoing connection inside the BFS of
`check_tree_reachability`.  An already-reachable target is skipped; otherwise
the source reads `target_node.prerequisite_logic` *without a null check*, so
a dangling `to_node_id` raises a `TypeError` — modelled as `Except.error`. -/
def reach_try_target (s : State) (tree_id : String) (tree : Tree)
    (reachable queue : List String) (conn : Connection) :
    Except String (List String × List String) :=
  let target_id := conn.to_node_id
  if reachable.contains target_id then Except.ok (reachable, queue)
  else
    match find_node s tree_id target_id with
    | none => Except.error "TypeError: target_node is null"
    | some target_node =>
      let incoming := tree.connections.filter (fun c => c.to_node_id == target_id)
      let logic := if target_node.prerequisite_logic = "" then "AND"
                   else target_node.prerequisite_logic
      let can_reach :=
        if logic = "AND" then incoming.all (fun c => reachable.contains c.from_node_id)
        else if logic = "OR" then incoming.any (fun c => reachable.contains c.from_node_id)
        else if logic = "SUM" then incoming.any (fun c => reachable.contains c.from_node_id)
        else false
      if can_reach then Except.ok (target_id :: reachable, queue ++ [target_id])
      else Except.ok (reachable, queue)

/-- The loop over the current node's outgoing connections, threading the
reachable set and the queue and propagating a raised `TypeError`. -/
def reach_conns (s : State) (tree_id : String) (tree : Tree) :
    List Connection → List String → List String → Except String (List String × List String)
  | [], reachable, queue => Except.ok (reachable, queue)
  | c :: cs, reachable, queue =>
    match reach_try_target s tree_id tree reachable queue c with
    | Except.error e => Except.error e
    | Except.ok (r', q') => reach_conns s tree_id tree cs r' q'

/-- The `while (head < queue.length)` BFS of `check_tree_reachability`.  Each
id is enqueued at most once from the root seeding plus at most once from
discovery, so the `2 * nodes + 1` fuel supplied below is never exhausted. -/
def reach_bfs (s : State) (tree_id : String) (tree : Tree) :
    Nat → List String → List String → Except String (List String)
  | 0, reachable, _ => Except.ok reachable
  | _ + 1, reachable, [] => Except.ok reachable
  | fuel + 1, reachable, current :: rest =>
    let outgoing := tree.connections.filter (fun c => c.from_node_id == current)
    match reach_conns s tree_id tree outgoing reachable rest with
    | Except.error e => Except.error e
    | Except.ok (r', q') => reach_bfs s tree_id tree fuel r' q'

/-- The root-seeding loop: every node with no incoming connections is marked
reachable (set semantics) and enqueued. -/
def reach_roots (tree : Tree) : List String × List String :=
  tree.nodes.foldl
    (fun acc node =>
      if (tree.connections.filter (fun c => c.to_node_id == node.id)).isEmpty then
        ((if acc.1.contains node.id then acc.1 else node.id :: acc.1), acc.2 ++ [node.id])
      else acc)
    ([], [])

/-- `check_tree_reachability` from `validation_engine.js`: `Except.ok` holds
the `unreachable` list; `Except.error` models the uncaught `TypeError` thrown
on a dangling connection target. -/
def check_tree_reachability (s : State) (tree_id : String) :
    Except String (List String) :=
  match find_tree s tree_id with
  | none => Except.ok []
  | some tree =>
    let seeded := reach_roots tree
    match reach_bfs s tree_id tree (2 * tree.nodes.length + 1) seeded.1 seeded.2 with
    | Except.error e => Except.error e
    | Except.ok reach_final =>
      Except.ok ((tree.nodes.filter (fun n => ¬reach_final.contains n.id)).map (fun n => n.id))

-- ===========================================================================
-- Concrete fixtures used by witnesses and counterexamples
-- ===========================================================================

/-- Play-mode state with `A → B` (required_rank 1), both nodes at rank 0:
`B` is LOCKED but within budget and below max rank. -/
def locked_state : State :=
  ⟨⟨⟨true, false⟩,
    [⟨"t", ⟨10, 0⟩,
      [⟨"A", 1, 0, [1], "AND", 1⟩, ⟨"B", 1, 0, [1], "AND", 1⟩],
      [⟨"c1", "A", "B", 1, none⟩]⟩]⟩,
   ⟨"play"⟩⟩

/-- Play-mode state with `A → B` (required_rank 1), `A` and `B` at rank 1,
plus an independent root `R` at rank 1; `spent = 4` (1 for A, 2 for B,
1 for R). -/
def cascade_state : State :=
  ⟨⟨⟨true, false⟩,
    [⟨"t", ⟨10, 4⟩,
      [⟨"A", 1, 1, [1], "AND", 1⟩, ⟨"B", 1, 1, [2], "AND", 1⟩, ⟨"R", 2, 1, [1], "AND", 1⟩],
      [⟨"c1", "A", "B", 1, none⟩]⟩]⟩,
   ⟨"play"⟩⟩

/-- State with a SUM node `C` whose stored `prerequisite_threshold` is `0`
(a JS falsy value, treated as `1` by the source), fed by `D` at rank 0. -/
def sum_zero_state : State :=
  ⟨⟨⟨true, false⟩,
    [⟨"t", ⟨10, 0⟩,
      [⟨"D", 2, 0, [1], "AND", 1⟩, ⟨"C", 1, 0, [1], "SUM", 0⟩],
      [⟨"c1", "D", "C", 1, none⟩]⟩]⟩,
   ⟨"play"⟩⟩

/-- State with a node `Y` whose `prerequisite_logic` is the unrecognized
string `"XOR"`, fed by `X` at rank 0 over a required_rank-1 edge. -/
def xor_state : State :=
  ⟨⟨⟨true, false⟩,
    [⟨"t", ⟨10, 0⟩,
      [⟨"X", 1, 0, [1], "AND", 1⟩, ⟨"Y", 1, 0, [1], "XOR", 1⟩],
      [⟨"c1", "X", "Y", 1, none⟩]⟩]⟩,
   ⟨"play"⟩⟩

/-- State whose only tree has a root node `A` and a connection from `A` to
the non-existent node id `"ghost"`. -/
def dangling_state : State :=
  ⟨⟨⟨true, false⟩,
    [⟨"t", ⟨10, 0⟩,
      [⟨"A", 1, 0, [1], "AND", 1⟩],
      [⟨"c1", "A", "ghost", 1, none⟩]⟩]⟩,
   ⟨"play"⟩⟩

/-- State whose only tree is the three-node cycle `A → B → C → A`. -/
def cycle_state : State :=
  ⟨⟨⟨true, false⟩,
    [⟨"t", ⟨10, 0⟩,
      [⟨"A", 1, 0, [1], "AND", 1⟩, ⟨"B", 1, 0, [1], "AND", 1⟩, ⟨"C", 1, 0, [1], "AND", 1⟩],
      [⟨"c1", "A", "B", 1, none⟩, ⟨"c2", "B", "C", 1, none⟩, ⟨"c3", "C", "A", 1, none⟩]⟩]⟩,
   ⟨"edit"⟩⟩

-- ===========================================================================
-- Basic lemmas about replace_first, find? and list sums
-- ===========================================================================

theorem replace_first_of_find?_none {p : α → Bool} {f : α → α} {l : List α}
    (h : l.find? p = none) : replace_first p f l = l := by
  induction l with
  | nil => rfl
  | cons x xs ih =>
    rw [List.find?_cons] at h
    cases hx : p x with
    | true => simp [hx] at h
    | false =>
      simp only [hx] at h
      simp [replace_first, hx, ih h]

theorem find?_replace_first_self {p : α → Bool} {f : α → α} {l : List α} {x : α}
    (h : l.find? p = some x) (hf : p (f x) = true) :
    (replace_first p f l).find? p = some (f x) := by
  induction l with
  | nil => simp at h
  | cons y ys ih =>
    rw [List.find?_cons] at h
    cases hy : p y with
    | true =>
      simp only [hy] at h
      cases h
      simp [replace_first, hy, List.find?_cons, hf]
    | false =>
      simp only [hy] at h
      simp [replace_first, hy, List.find?_cons, ih h]

theorem find?_replace_first_other {p q : α → Bool} {f : α → α} {l : List α}
    (hq : ∀ a, p a = true → q a = false ∧ q (f a) = false) :
    (replace_first p f l).find? q = l.find? q := by
  induction l with
  | nil => rfl
  | cons y ys ih =>
    cases hy : p y with
    | true =>
      obtain ⟨h1, h2⟩ := hq y hy
      simp [replace_first, hy, List.find?_cons, h1, h2]
    | false =>
      cases hqy : q y with
      | true => simp [replace_first, hy, List.find?_cons, hqy]
      | false => simp [replace_first, hy, List.find?_cons, hqy, ih]

theorem mem_replace_first {p : α → Bool} {f : α → α} {l : List α} {y : α}
    (h : y ∈ replace_first p f l) : y ∈ l ∨ ∃ x ∈ l, p x = true ∧ y = f x := by
  induction l with
  | nil => simp [replace_first] at h
  | cons z zs ih =>
    by_cases hz : p z = true
    · simp only [replace_first, hz, if_pos] at h
      rcases List.mem_cons.mp h with h | h
      · exact Or.inr ⟨z, List.mem_cons_self z zs, hz, h⟩
      · exact Or.inl (List.mem_cons_of_mem z h)
    · simp only [replace_first, hz, if_neg, Bool.not_eq_true] at h
      rcases List.mem_cons.mp h with h | h
      · exact Or.inl (h ▸ List.mem_cons_self z zs)
      · rcases ih h with h' | ⟨x, hx, hpx, hy⟩
        · exact Or.inl (List.mem_cons_of_mem z h')
        · exact Or.inr ⟨x, List.mem_cons_of_mem z hx, hpx, hy⟩

theorem sum_map_replace_first_int (g : α → Int) {p : α → Bool} {f : α → α}
    {l : List α} {x : α} (h : l.find? p = some x) :
    ((replace_first p f l).map g).sum + g x = (l.map g).sum + g (f x) := by
  induction l with
  | nil => simp at h
  | cons y ys ih =>
    rw [List.find?_cons] at h
    cases hy : p y with
    | true =>
      simp only [hy] at h
      cases h
      simp only [replace_first, hy, if_pos, List.map_cons, List.sum_cons]
      ring
    | false =>
      simp only [hy] at h
      simp only [replace_first, hy, Bool.false_eq_true, if_neg, List.map_cons,
        List.sum_cons, not_false_iff]
      have := ih h
      omega

theorem sum_map_set_int (g : α → Int) {l : List α} {i : Nat} {x : α} (y : α)
    (h : l.get? i = some x) :
    ((l.set i y).map g).sum + g x = (l.map g).sum + g y := by
  induction l generalizing i with
  | nil => simp at h
  | cons z zs ih =>
    cases i with
    | zero =>
      simp only [List.get?] at h
      cases h
      simp only [List.set, List.map_cons, List.sum_cons]
      ring
    | succ j =>
      simp only [List.get?] at h
      simp only [List.set, List.map_cons, List.sum_cons]
      have := ih h
      omega

theorem sum_map_set_nat (g : α → Nat) {l : List α} {i : Nat} {x : α} (y : α)
    (h : l.get? i = some x) :
    ((l.set i y).map g).sum + g x = (l.map g).sum + g y := by
  induction l generalizing i with
  | nil => simp at h
  | cons z zs ih =>
    cases i with
    | zero =>
      simp only [List.get?] at h
      cases h
      simp only [List.set, List.map_cons, List.sum_cons]
      omega
    | succ j =>
      simp only [List.get?] at h
      simp only [List.set, List.map_cons, List.sum_cons]
      have := ih h
      omega

-- ===========================================================================
-- State-level lemmas about set_first_tree
-- ===========================================================================

/-- Bookkeeping drift of a tree: recorded spend minus the spend implied by
the node ranks.  The engine's mutations preserve this quantity, which is
exactly what keeps `WARN_POINT_POOL_MISMATCH` from appearing. -/
def pool_drift (s : State) (tree_id : String) : Int :=
  match find_tree s tree_id with
  | none => 0
  | some tree => tree.point_pool.spent - calculate_spent_points tree

theorem find_tree_set_first_self (tr' : Tree) {s : State} {tid : String} {tree : Tree}
    (h : find_tree s tid = some tree) (hid : (tr'.id == tid) = true) :
    find_tree (set_first_tree s tid tr') tid = some tr' :=
  find?_replace_first_self h hid

theorem find_tree_set_first_other {s : State} {tid tid2 : String} {tr' : Tree}
    (hne : tid2 ≠ tid) (hid : tr'.id = tid) :
    find_tree (set_first_tree s tid tr') tid2 = find_tree s tid2 := by
  apply find?_replace_first_other
  intro a ha
  have ha' : a.id = tid := by simpa using ha
  constructor
  · simp [ha']
    exact fun h => absurd h.symm hne
  · simp [hid]
    exact fun h => absurd h.symm hne

-- ===========================================================================
-- Cascade resolver lemmas
-- ===========================================================================

/-- Case analysis of one cascade step: it either leaves the accumulator
unchanged, or zeroes the node at index `i` (which had positive rank and
unsatisfied prerequisites), refunds its accumulated cost, and sets the
changed flag. -/
theorem cascade_step_eq (tid : String) (acc : State × Bool) (i : Nat) :
    cascade_step tid acc i = acc ∨
    ∃ tree node, find_tree acc.1 tid = some tree ∧ tree.nodes.get? i = some node ∧
      node.current_rank > 0 ∧ ¬check_prerequisites acc.1 tid node.id = true ∧
      cascade_step tid acc i =
        (set_first_tree acc.1 tid
          { tree with
              nodes := tree.nodes.set i { node with current_rank := 0 },
              point_pool := { tree.point_pool with
                spent := tree.point_pool.spent - rank_cost node.cost_per_rank node.current_rank } },
         true) := by
  unfold cascade_step
  split
  · exact Or.inl rfl
  · rename_i tree hfind
    split
    · exact Or.inl rfl
    · rename_i node hget
      split
      · rename_i hcond
        exact Or.inr ⟨tree, node, hfind, hget, hcond.1, hcond.2, rfl⟩
      · exact Or.inl rfl

theorem cascade_step_flag_mono (tid : String) (acc : State × Bool) (i : Nat)
    (h : acc.2 = true) : (cascade_step tid acc i).2 = true := by
  rcases cascade_step_eq tid acc i with heq | ⟨tree, node, _, _, _, _, heq⟩
  · rw [heq]; exact h
  · rw [heq]

theorem cascade_step_of_flag_false {tid : String} {acc : State × Bool} {i : Nat}
    (h : (cascade_step tid acc i).2 = false) : cascade_step tid acc i = acc := by
  rcases cascade_step_eq tid acc i with heq | ⟨tree, node, _, _, _, _, heq⟩
  · exact heq
  · rw [heq] at h
    simp at h

/-- The id test that `find_tree` satisfied on the tree it returned. -/
theorem find_tree_id {s : State} {tid : String} {tree : Tree}
    (h : find_tree s tid = some tree) : (tree.id == tid) = true := by
  have h' : List.find? (fun t => t.id == tid) s.project.trees = some tree := h
  have h2 := List.find?_some h'
  exact h2

theorem cascade_step_rank_le (tid : String) (acc : State × Bool) (i : Nat) :
    tree_total_rank (cascade_step tid acc i).1 tid ≤ tree_total_rank acc.1 tid := by
  rcases cascade_step_eq tid acc i with heq | ⟨tree, node, hfind, hget, hrank, _, heq⟩
  · rw [heq]
  · rw [heq]
    have hp := find_tree_id hfind
    have hfind' := find_tree_set_first_self
      { tree with
        nodes := tree.nodes.set i { node with current_rank := 0 },
        point_pool := { tree.point_pool with
          spent := tree.point_pool.spent - rank_cost node.cost_per_rank node.current_rank } }
      hfind hp
    simp only [tree_total_rank, hfind, hfind']
    have hsum := sum_map_set_nat (fun n => n.current_rank)
      ({ node with current_rank := 0 }) hget
    simp only at hsum
    omega

theorem cascade_step_flag_decr (tid : String) (acc : State × Bool) (i : Nat)
    (h : (cascade_step tid acc i).2 = true) :
    acc.2 = true ∨
      tree_total_rank (cascade_step tid acc i).1 tid < tree_total_rank acc.1 tid := by
  rcases cascade_step_eq tid acc i with heq | ⟨tree, node, hfind, hget, hrank, _, heq⟩
  · rw [heq] at h
    exact Or.inl h
  · right
    rw [heq]
    have hp := find_tree_id hfind
    have hfind' := find_tree_set_first_self
      { tree with
        nodes := tree.nodes.set i { node with current_rank := 0 },
        point_pool := { tree.point_pool with
          spent := tree.point_pool.spent - rank_cost node.cost_per_rank node.current_rank } }
      hfind hp
    simp only [tree_total_rank, hfind, hfind']
    have hsum := sum_map_set_nat (fun n => n.current_rank)
      ({ node with current_rank := 0 }) hget
    simp only at hsum
    omega

theorem cascade_step_drift (tid : String) (acc : State × Bool) (i : Nat) :
    pool_drift (cascade_step tid acc i).1 tid = pool_drift acc.1 tid := by
  rcases cascade_step_eq tid acc i with heq | ⟨tree, node, hfind, hget, hrank, _, heq⟩
  · rw [heq]
  · rw [heq]
    have hp := find_tree_id hfind
    have hfind' := find_tree_set_first_self
      { tree with
        nodes := tree.nodes.set i { node with current_rank := 0 },
        point_pool := { tree.point_pool with
          spent := tree.point_pool.spent - rank_cost node.cost_per_rank node.current_rank } }
      hfind hp
    simp only [pool_drift, hfind, hfind']
    have hsum := sum_map_set_int (fun n => rank_cost n.cost_per_rank n.current_rank)
      ({ node with current_rank := 0 }) hget
    simp only [calculate_spent_points, rank_cost] at hsum ⊢
    omega

theorem cascade_step_trigger {tid : String} {acc : State × Bool} {i : Nat}
    {tree : Tree} {node : Node}
    (hfind : find_tree acc.1 tid = some tree) (hget : tree.nodes.get? i = some node)
    (hrank : node.current_rank > 0) (hpr : ¬check_prerequisites acc.1 tid node.id = true) :
    (cascade_step tid acc i).2 = true := by
  unfold cascade_step
  simp only [hfind, hget]
  rw [if_pos ⟨hrank, hpr⟩]

theorem cascade_fold_flag_mono (tid : String) (L : List Nat) (acc : State × Bool)
    (h : acc.2 = true) : (L.foldl (cascade_step tid) acc).2 = true := by
  induction L generalizing acc with
  | nil => exact h
  | cons i L ih => exact ih _ (cascade_step_flag_mono tid acc i h)

theorem cascade_fold_of_flag_false (tid : String) (L : List Nat) (acc : State × Bool)
    (h : (L.foldl (cascade_step tid) acc).2 = false) :
    L.foldl (cascade_step tid) acc = acc := by
  induction L generalizing acc with
  | nil => rfl
  | cons i L ih =>
    have h1 : (cascade_step tid acc i).2 = false := by
      cases hf : (cascade_step tid acc i).2 with
      | false => rfl
      | true =>
        have := cascade_fold_flag_mono tid L _ hf
        simp only [List.foldl_cons] at h
        rw [this] at h
        cases h
    have h2 := cascade_step_of_flag_false h1
    simp only [List.foldl_cons] at h ⊢
    rw [h2] at h ⊢
    exact ih _ h

theorem cascade_fold_rank_le (tid : String) (L : List Nat) (acc : State × Bool) :
    tree_total_rank (L.foldl (cascade_step tid) acc).1 tid ≤ tree_total_rank acc.1 tid := by
  induction L generalizing acc with
  | nil => exact Nat.le_refl _
  | cons i L ih =>
    simp only [List.foldl_cons]
    exact Nat.le_trans (ih _) (cascade_step_rank_le tid acc i)

theorem cascade_fold_flag_decr (tid : String) (L : List Nat) (acc : State × Bool)
    (h : (L.foldl (cascade_step tid) acc).2 = true) :
    acc.2 = true ∨
      tree_total_rank (L.foldl (cascade_step tid) acc).1 tid < tree_total_rank acc.1 tid := by
  induction L generalizing acc with
  | nil => exact Or.inl h
  | cons i L ih =>
    simp only [List.foldl_cons] at h ⊢
    rcases ih _ h with h1 | h1
    · rcases cascade_step_flag_decr tid acc i h1 with h2 | h2
      · exact Or.inl h2
      · exact Or.inr (Nat.lt_of_le_of_lt (cascade_fold_rank_le tid L _) h2)
    · exact Or.inr (Nat.lt_of_lt_of_le h1 (cascade_step_rank_le tid acc i))

theorem cascade_fold_drift (tid : String) (L : List Nat) (acc : State × Bool) :
    pool_drift (L.foldl (cascade_step tid) acc).1 tid = pool_drift acc.1 tid := by
  induction L generalizing acc with
  | nil => rfl
  | cons i L ih =>
    simp only [List.foldl_cons]
    rw [ih _, cascade_step_drift]

theorem cascade_fold_no_change (tid : String) (L : List Nat) (s : State)
    (h : (L.foldl (cascade_step tid) (s, false)).2 = false) :
    ∀ i ∈ L, cascade_step tid (s, false) i = (s, false) := by
  induction L with
  | nil => intro i hi; cases hi
  | cons j L ih =>
    have h1 : (cascade_step tid (s, false) j).2 = false := by
      cases hf : (cascade_step tid (s, false) j).2 with
      | false => rfl
      | true =>
        have := cascade_fold_flag_mono tid L _ hf
        simp only [List.foldl_cons] at h
        rw [this] at h
        cases h
    have h2 := cascade_step_of_flag_false h1
    intro i hi
    rcases List.mem_cons.mp hi with hi | hi
    · rw [hi]; exact h2
    · refine ih ?_ i hi
      simp only [List.foldl_cons] at h
      rw [h2] at h
      exact h

theorem cascade_pass_of_flag_false {s : State} {tid : String}
    (h : (cascade_pass s tid).2 = false) : (cascade_pass s tid).1 = s := by
  unfold cascade_pass at h ⊢
  split at h
  · rfl
  · rename_i tree hfind
    rw [cascade_fold_of_flag_false _ _ _ h]

theorem cascade_pass_decr {s : State} {tid : String}
    (h : (cascade_pass s tid).2 = true) :
    tree_total_rank (cascade_pass s tid).1 tid < tree_total_rank s tid := by
  unfold cascade_pass at h ⊢
  split at h
  · cases h
  · rename_i tree hfind
    rcases cascade_fold_flag_decr tid _ _ h with h1 | h1
    · cases h1
    · exact h1

theorem cascade_pass_drift (s : State) (tid : String) :
    pool_drift (cascade_pass s tid).1 tid = pool_drift s tid := by
  unfold cascade_pass
  split
  · rfl
  · exact cascade_fold_drift tid _ _

theorem cascade_pass_fixpoint {s : State} {tid : String}
    (h : (cascade_pass s tid).2 = false) {tree : Tree}
    (hfind : find_tree s tid = some tree) {i : Nat} {node : Node}
    (hget : tree.nodes.get? i = some node) (hrank : node.current_rank > 0) :
    check_prerequisites s tid node.id = true := by
  by_contra hpr
  have hi : i ∈ List.range tree.nodes.length := by
    rw [List.mem_range]
    by_contra hlen
    rw [List.get?_eq_none.mpr (Nat.le_of_not_lt hlen)] at hget
    cases hget
  unfold cascade_pass at h
  rw [hfind] at h
  have hstep := cascade_fold_no_change tid _ s h i hi
  have htrig := @cascade_step_trigger tid (s, false) i tree node hfind hget hrank hpr
  rw [hstep] at htrig
  cases htrig

theorem cascade_go_fixpoint (tid : String) :
    ∀ fuel (s : State), tree_total_rank s tid < fuel →
      cascade_pass (cascade_go tid fuel s) tid = (cascade_go tid fuel s, false) := by
  intro fuel
  induction fuel with
  | zero => intro s h; cases h
  | succ fuel ih =>
    intro s h
    simp only [cascade_go]
    cases hr : (cascade_pass s tid).2 with
    | true =>
      simp only [hr, if_true]
      exact ih _ (Nat.lt_of_lt_of_le (cascade_pass_decr hr) (Nat.lt_succ_iff.mp h))
    | false =>
      simp only [hr, Bool.false_eq_true, if_false]
      have h1 := cascade_pass_of_flag_false hr
      rw [h1]
      exact Prod.ext h1 hr

theorem cascade_go_drift (tid : String) :
    ∀ fuel (s : State), pool_drift (cascade_go tid fuel s) tid = pool_drift s tid := by
  intro fuel
  induction fuel with
  | zero => intro s; rfl
  | succ fuel ih =>
    intro s
    simp only [cascade_go]
    cases hr : (cascade_pass s tid).2 with
    | true =>
      simp only [hr, if_true]
      rw [ih _]
      exact cascade_pass_drift s tid
    | false =>
      simp only [hr, Bool.false_eq_true, if_false]
      exact cascade_pass_drift s tid

theorem apply_cascade_refunds_fixpoint (s : State) (tid : String) :
    cascade_pass (apply_cascade_refunds s tid) tid = (apply_cascade_refunds s tid, false) :=
  cascade_go_fixpoint tid _ s (Nat.lt_succ_self _)

theorem apply_cascade_refunds_drift (s : State) (tid : String) :
    pool_drift (apply_cascade_refunds s tid) tid = pool_drift s tid :=
  cascade_go_drift tid _ s

theorem apply_cascade_refunds_prereqs {s : State} {tid : String} {tree' : Tree}
    (hfind : find_tree (apply_cascade_refunds s tid) tid = some tree') :
    ∀ node ∈ tree'.nodes, node.current_rank > 0 →
      check_prerequisites (apply_cascade_refunds s tid) tid node.id = true := by
  intro node hmem hrank
  obtain ⟨i, hget⟩ := List.mem_iff_get?.mp hmem
  refine cascade_pass_fixpoint ?_ hfind hget hrank
  rw [apply_cascade_refunds_fixpoint]

theorem rank_cost_succ (costs : List Int) (r : Nat) (h : r ≠ 0) :
    rank_cost costs r = rank_cost costs (r - 1) + costs.getD (min (r - 1) (costs.length - 1)) 0 := by
  cases r with
  | zero => cases h rfl
  | succ k => simp [rank_cost]

/-- C7: the cascade resolver's fixpoint loop terminates: every pass over the
nodes either changes nothing — and then the loop exits, `apply_cascade_refunds`
returning the state unchanged — or strictly decreases the total allocated
rank count of the tree, a natural number bounded below by zero. -/
theorem C7_cascade_pass_decreases (s : State) (tid : String) :
    ((cascade_pass s tid).2 = false ∧ (cascade_pass s tid).1 = s ∧
      apply_cascade_refunds s tid = s) ∨
    tree_total_rank (cascade_pass s tid).1 tid < tree_total_rank s tid := by
  cases hr : (cascade_pass s tid).2 with
  | false =>
    left
    have h1 := cascade_pass_of_flag_false hr
    refine ⟨rfl, h1, ?_⟩
    unfold apply_cascade_refunds
    simp only [cascade_go]
    rw [hr]
    simp only [Bool.false_eq_true, if_false]
    exact h1
  | true => exact Or.inr (cascade_pass_decr hr)

/-- C8: the cascade resolver is idempotent — running `apply_cascade_refunds`
a second time immediately after a first application changes nothing. -/
theorem C8_resolve_idempotent (s : State) (tid : String) :
    apply_cascade_refunds (apply_cascade_refunds s tid) tid = apply_cascade_refunds s tid := by
  have h := apply_cascade_refunds_fixpoint s tid
  set t := apply_cascade_refunds s tid with ht
  unfold apply_cascade_refunds
  simp only [cascade_go]
  rw [h]
  simp

/-- C2: in simulation (play) mode, a refund that actually executes (refunds
allowed, tree and node found, positive rank) leaves the tree at a cascade
fixpoint — every node still holding rank has satisfied prerequisites — and
the bookkeeping drift `spent - calculate_spent_points` is unchanged by the
whole call: the direct refund and every cascade-forced zeroing subtract from
`spent` exactly the accumulated `cost_per_rank[min(i, length-1)]` cost of the
ranks they remove. -/
theorem C2_refund_reaches_fixpoint (s : State) (tid nid : String) (tree : Tree) (node : Node)
    (hmode : s.ui_state.mode = "play")
    (hallow : s.project.settings.allow_refunds = true)
    (hfind : find_tree s tid = some tree)
    (hnode : tree.nodes.find? (fun n => n.id == nid) = some node)
    (hrank : node.current_rank ≠ 0) :
    ∀ tree', find_tree (refund_point s tid nid) tid = some tree' →
      (∀ nd ∈ tree'.nodes, nd.current_rank > 0 →
        check_prerequisites (refund_point s tid nid) tid nd.id = true) ∧
      tree'.point_pool.spent - calculate_spent_points tree' =
        tree.point_pool.spent - calculate_spent_points tree := by
  have hred : refund_point s tid nid =
      apply_cascade_refunds
        (set_first_tree s tid
          { tree with
              nodes := replace_first (fun n => n.id == nid)
                (fun n => { n with current_rank := n.current_rank - 1 }) tree.nodes,
              point_pool := { tree.point_pool with
                spent := tree.point_pool.spent - node.cost_per_rank.getD
                  (min (node.current_rank - 1) (node.cost_per_rank.length - 1)) 0 } })
        tid := by
    unfold refund_point
    simp [hfind, hnode, hallow, hmode, hrank]
  set tree1 : Tree :=
    { tree with
        nodes := replace_first (fun n => n.id == nid)
          (fun n => { n with current_rank := n.current_rank - 1 }) tree.nodes,
        point_pool := { tree.point_pool with
          spent := tree.point_pool.spent - node.cost_per_rank.getD
            (min (node.current_rank - 1) (node.cost_per_rank.length - 1)) 0 } } with htree1
  have hp := find_tree_id hfind
  have hfind1 : find_tree (set_first_tree s tid tree1) tid = some tree1 :=
    find_tree_set_first_self tree1 hfind hp
  have hdrift1 : pool_drift (set_first_tree s tid tree1) tid = pool_drift s tid := by
    simp only [pool_drift, hfind1, hfind]
    have hsum := @sum_map_replace_first_int Node
      (fun n => rank_cost n.cost_per_rank n.current_rank)
      (fun n => n.id == nid)
      (fun n => { n with current_rank := n.current_rank - 1 })
      tree.nodes node hnode
    have hrc := rank_cost_succ node.cost_per_rank node.current_rank hrank
    simp only [calculate_spent_points, htree1] at hsum ⊢
    omega
  intro tree' hfind'
  rw [hred] at hfind' ⊢
  constructor
  · exact apply_cascade_refunds_prereqs hfind'
  · have h2 := apply_cascade_refunds_drift (set_first_tree s tid tree1) tid
    rw [hdrift1] at h2
    simp only [pool_drift, hfind', hfind] at h2
    exact h2

/-- Witness for C2 at `cascade_state`: refunding `A` cascades `B` to rank 0;
the independent root `R` keeps its rank and satisfied prerequisites, and the
drift between recorded and implied spend is unchanged. -/
theorem C2_refund_reaches_fixpoint_witness :
    check_prerequisites (refund_point cascade_state "t" "A") "t" "R" = true ∧
    ((⟨"t", ⟨10, 1⟩,
        [⟨"A", 1, 0, [1], "AND", 1⟩, ⟨"B", 1, 0, [2], "AND", 1⟩, ⟨"R", 2, 1, [1], "AND", 1⟩],
        [⟨"c1", "A", "B", 1, none⟩]⟩ : Tree).point_pool.spent -
      calculate_spent_points
        ⟨"t", ⟨10, 1⟩,
          [⟨"A", 1, 0, [1], "AND", 1⟩, ⟨"B", 1, 0, [2], "AND", 1⟩, ⟨"R", 2, 1, [1], "AND", 1⟩],
          [⟨"c1", "A", "B", 1, none⟩]⟩ =
     (⟨"t", ⟨10, 4⟩,
        [⟨"A", 1, 1, [1], "AND", 1⟩, ⟨"B", 1, 1, [2], "AND", 1⟩, ⟨"R", 2, 1, [1], "AND", 1⟩],
        [⟨"c1", "A", "B", 1, none⟩]⟩ : Tree).point_pool.spent -
      calculate_spent_points
        ⟨"t", ⟨10, 4⟩,
          [⟨"A", 1, 1, [1], "AND", 1⟩, ⟨"B", 1, 1, [2], "AND", 1⟩, ⟨"R", 2, 1, [1], "AND", 1⟩],
          [⟨"c1", "A", "B", 1, none⟩]⟩) := by
  have h := C2_refund_reaches_fixpoint cascade_state "t" "A"
    ⟨"t", ⟨10, 4⟩,
      [⟨"A", 1, 1, [1], "AND", 1⟩, ⟨"B", 1, 1, [2], "AND", 1⟩, ⟨"R", 2, 1, [1], "AND", 1⟩],
      [⟨"c1", "A", "B", 1, none⟩]⟩
    ⟨"A", 1, 1, [1], "AND", 1⟩ rfl rfl rfl rfl (by decide)
  have h2 := h
    ⟨"t", ⟨10, 1⟩,
      [⟨"A", 1, 0, [1], "AND", 1⟩, ⟨"B", 1, 0, [2], "AND", 1⟩, ⟨"R", 2, 1, [1], "AND", 1⟩],
      [⟨"c1", "A", "B", 1, none⟩]⟩
    (by decide)
  exact ⟨h2.1 ⟨"R", 2, 1, [1], "AND", 1⟩ (by decide) (by decide), h2.2⟩

-- ===========================================================================
-- Engine-driven operation sequences (C3)
-- ===========================================================================

/-- An engine-driven mutation: a point allocation or a point refund, as
dispatched by the play-mode click handlers. -/
inductive EngineOp where
  | alloc (tree_id node_id : String)
  | refund (tree_id node_id : String)
deriving Repr, DecidableEq

/-- Runs one engine operation. -/
def apply_engine_op (s : State) : EngineOp → State
  | EngineOp.alloc tid nid => allocate_point s tid nid
  | EngineOp.refund tid nid => refund_point s tid nid

/-- Runs a sequence of engine operations left to right. -/
def apply_engine_ops (s : State) (ops : List EngineOp) : State :=
  ops.foldl apply_engine_op s

theorem find_tree_id_eq {s : State} {tid : String} {tree : Tree}
    (h : find_tree s tid = some tree) : tree.id = tid := by
  have h2 := find_tree_id h
  simpa using h2

theorem cascade_step_find_other {tid2 : String} (acc : State × Bool) (i : Nat)
    {tid : String} (hne : tid ≠ tid2) :
    find_tree (cascade_step tid2 acc i).1 tid = find_tree acc.1 tid := by
  rcases cascade_step_eq tid2 acc i with heq | ⟨tree, node, hfind, hget, hrank, hpr, heq⟩
  · rw [heq]
  · rw [heq]
    have hid := find_tree_id_eq hfind
    exact find_tree_set_first_other hne hid

theorem cascade_fold_find_other (tid2 : String) (L : List Nat) (acc : State × Bool)
    {tid : String} (hne : tid ≠ tid2) :
    find_tree (L.foldl (cascade_step tid2) acc).1 tid = find_tree acc.1 tid := by
  induction L generalizing acc with
  | nil => rfl
  | cons i L ih =>
    simp only [List.foldl_cons]
    rw [ih _, cascade_step_find_other _ _ hne]

theorem cascade_pass_find_other (s : State) (tid2 : String) {tid : String}
    (hne : tid ≠ tid2) :
    find_tree (cascade_pass s tid2).1 tid = find_tree s tid := by
  unfold cascade_pass
  split
  · rfl
  · exact cascade_fold_find_other tid2 _ _ hne

theorem cascade_go_find_other (tid2 : String) (fuel : Nat) (s : State) {tid : String}
    (hne : tid ≠ tid2) :
    find_tree (cascade_go tid2 fuel s) tid = find_tree s tid := by
  induction fuel generalizing s with
  | zero => rfl
  | succ fuel ih =>
    simp only [cascade_go]
    cases hr : (cascade_pass s tid2).2 with
    | true =>
      simp only [hr, if_true]
      rw [ih _, cascade_pass_find_other s tid2 hne]
    | false =>
      simp only [hr, Bool.false_eq_true, if_false]
      exact cascade_pass_find_other s tid2 hne

/-- The cascade preserves the drift of every tree: the cascaded tree by the
pass-level accounting, every other tree because it is untouched. -/
theorem cascade_go_drift_all (tid2 : String) (fuel : Nat) (s : State) (tid : String) :
    pool_drift (cascade_go tid2 fuel s) tid = pool_drift s tid := by
  by_cases h : tid = tid2
  · subst h; exact cascade_go_drift tid fuel s
  · unfold pool_drift
    rw [cascade_go_find_other tid2 fuel s h]

/-- Replacing tree `tidset` does not change the drift of a different tree. -/
theorem pool_drift_set_first_other {s : State} {tidset tidq : String} (tr' : Tree)
    (hne : tidq ≠ tidset) (hid : tr'.id = tidset) :
    pool_drift (set_first_tree s tidset tr') tidq = pool_drift s tidq := by
  unfold pool_drift
  rw [find_tree_set_first_other hne hid]

/-- A successful allocation adds the next rank's cost to `spent` and exactly
that cost to the implied spend, so the drift of every tree is unchanged. -/
theorem allocate_point_drift (s : State) (tid2 nid : String) (tid : String) :
    pool_drift (allocate_point s tid2 nid) tid = pool_drift s tid := by
  unfold allocate_point
  split
  · rfl
  · rename_i tree hfind
    split
    · rfl
    · rename_i node hnode
      split
      · rfl
      · dsimp only
        split
        · rfl
        · by_cases h : tid = tid2
          · subst h
            have hp := find_tree_id hfind
            have hfind' := find_tree_set_first_self
              { tree with
                  nodes := replace_first (fun n => n.id == nid)
                    (fun n => { n with current_rank := n.current_rank + 1 }) tree.nodes,
                  point_pool := { tree.point_pool with
                    spent := tree.point_pool.spent + node.cost_per_rank.getD
                      (min node.current_rank (node.cost_per_rank.length - 1)) 0 } }
              hfind hp
            simp only [pool_drift, hfind, hfind']
            have hsum := @sum_map_replace_first_int Node
              (fun n => rank_cost n.cost_per_rank n.current_rank)
              (fun n => n.id == nid)
              (fun n => { n with current_rank := n.current_rank + 1 })
              tree.nodes node hnode
            simp only [calculate_spent_points, rank_cost] at hsum ⊢
            omega
          · have hid0 := find_tree_id_eq hfind
            exact pool_drift_set_first_other _ h hid0

/-- A successful refund (with or without the cascade) removes the refunded
rank's cost from both `spent` and the implied spend, and the cascade
preserves drift, so the drift of every tree is unchanged. -/
theorem refund_point_drift (s : State) (tid2 nid : String) (tid : String) :
    pool_drift (refund_point s tid2 nid) tid = pool_drift s tid := by
  unfold refund_point
  split
  · rfl
  · split
    · rfl
    · rename_i tree hfind
      split
      · rfl
      · rename_i node hnode
        split
        · rfl
        · rename_i hrank
          have hd1 : pool_drift
              (set_first_tree s tid2
                { tree with
                    nodes := replace_first (fun n => n.id == nid)
                      (fun n => { n with current_rank := n.current_rank - 1 }) tree.nodes,
                    point_pool := { tree.point_pool with
                      spent := tree.point_pool.spent - node.cost_per_rank.getD
                        (min (node.current_rank - 1) (node.cost_per_rank.length - 1)) 0 } })
              tid = pool_drift s tid := by
            by_cases h : tid = tid2
            · subst h
              have hp := find_tree_id hfind
              have hfind' := find_tree_set_first_self
                { tree with
                    nodes := replace_first (fun n => n.id == nid)
                      (fun n => { n with current_rank := n.current_rank - 1 }) tree.nodes,
                    point_pool := { tree.point_pool with
                      spent := tree.point_pool.spent - node.cost_per_rank.getD
                        (min (node.current_rank - 1) (node.cost_per_rank.length - 1)) 0 } }
                hfind hp
              simp only [pool_drift, hfind, hfind']
              have hsum := @sum_map_replace_first_int Node
                (fun n => rank_cost n.cost_per_rank n.current_rank)
                (fun n => n.id == nid)
                (fun n => { n with current_rank := n.current_rank - 1 })
                tree.nodes node hnode
              have hrc := rank_cost_succ node.cost_per_rank node.current_rank hrank
              simp only [calculate_spent_points] at hsum ⊢
              omega
            · have hid0 := find_tree_id_eq hfind
              exact pool_drift_set_first_other _ h hid0
          split
          · unfold apply_cascade_refunds
            rw [cascade_go_drift_all]
            exact hd1
          · exact hd1

theorem apply_engine_op_drift (s : State) (op : EngineOp) (tid : String) :
    pool_drift (apply_engine_op s op) tid = pool_drift s tid := by
  cases op with
  | alloc tid2 nid => exact allocate_point_drift s tid2 nid tid
  | refund tid2 nid => exact refund_point_drift s tid2 nid tid

theorem apply_engine_ops_drift (ops : List EngineOp) (s : State) (tid : String) :
    pool_drift (apply_engine_ops s ops) tid = pool_drift s tid := by
  induction ops generalizing s with
  | nil => rfl
  | cons op ops ih =>
    simp only [apply_engine_ops, List.foldl_cons] at ih ⊢
    rw [ih, apply_engine_op_drift]

/-- C3: point-pool conservation.  If a tree starts with `spent` equal to the
recomputed per-node cost sum, then after any sequence of engine-driven
`allocate_point`/`refund_point` operations (cascades included) it still does,
and `validate_tree` reports no `WARN_POINT_POOL_MISMATCH` on the result. -/
theorem C3_conservation (s : State) (tid : String) (ops : List EngineOp) (tree : Tree)
    (hfind : find_tree s tid = some tree)
    (hinv : tree.point_pool.spent = calculate_spent_points tree) :
    (∀ tree', find_tree (apply_engine_ops s ops) tid = some tree' →
      tree'.point_pool.spent = calculate_spent_points tree') ∧
    (∀ w ∈ (validate_tree (apply_engine_ops s ops) tid).warnings,
      ∀ a b, w ≠ VWarning.point_pool_mismatch a b) := by
  have hdrift : pool_drift (apply_engine_ops s ops) tid = 0 := by
    rw [apply_engine_ops_drift]
    simp only [pool_drift, hfind]
    omega
  have hmain : ∀ tree', find_tree (apply_engine_ops s ops) tid = some tree' →
      tree'.point_pool.spent = calculate_spent_points tree' := by
    intro tree' hfind'
    simp only [pool_drift, hfind'] at hdrift
    omega
  refine ⟨hmain, ?_⟩
  intro w hw a b
  cases hfind' : find_tree (apply_engine_ops s ops) tid with
  | none =>
    unfold validate_tree at hw
    rw [hfind'] at hw
    simp at hw
  | some tree' =>
    have hspend := hmain tree' hfind'
    unfold validate_tree at hw
    rw [hfind'] at hw
    simp only [hspend.symm, ne_eq, not_true_eq_false, if_false, ite_self,
      List.nil_append] at hw
    intro heq
    subst heq
    by_cases hc : tree'.nodes.length > 1 ∧ tree'.connections.length > 0
    · rw [if_pos hc] at hw
      rcases List.mem_map.mp hw with ⟨n, _, hn⟩
      cases hn
    · rw [if_neg hc] at hw
      cases hw

/-- Witness for C3 at `locked_state` with the sequence
allocate A, allocate B, refund A (the refund cascades B back to 0). -/
theorem C3_conservation_witness :
    (⟨"t", ⟨10, 0⟩,
      [⟨"A", 1, 0, [1], "AND", 1⟩, ⟨"B", 1, 0, [1], "AND", 1⟩],
      [⟨"c1", "A", "B", 1, none⟩]⟩ : Tree).point_pool.spent =
    calculate_spent_points
      ⟨"t", ⟨10, 0⟩,
        [⟨"A", 1, 0, [1], "AND", 1⟩, ⟨"B", 1, 0, [1], "AND", 1⟩],
        [⟨"c1", "A", "B", 1, none⟩]⟩ :=
  (C3_conservation locked_state "t"
    [EngineOp.alloc "t" "A", EngineOp.alloc "t" "B", EngineOp.refund "t" "A"]
    ⟨"t", ⟨10, 0⟩,
      [⟨"A", 1, 0, [1], "AND", 1⟩, ⟨"B", 1, 0, [1], "AND", 1⟩],
      [⟨"c1", "A", "B", 1, none⟩]⟩
    rfl (by decide)).1
    ⟨"t", ⟨10, 0⟩,
      [⟨"A", 1, 0, [1], "AND", 1⟩, ⟨"B", 1, 0, [1], "AND", 1⟩],
      [⟨"c1", "A", "B", 1, none⟩]⟩
    (by decide)

-- ===========================================================================
-- C1: rejection behaviour of allocate_point
-- ===========================================================================

/-- C1 (counterexample to the claim as stated): in play mode, node `B` of
`locked_state` is LOCKED, so `can_allocate_point` rejects with
"Prerequisites not met" — yet `allocate_point` does not return the input
unchanged: it increments `B`'s rank and the pool's `spent`, because
`allocate_point` itself never re-checks prerequisites. -/
theorem C1_counterexample :
    can_allocate_point locked_state "t" "B" = ⟨false, some "Prerequisites not met"⟩ ∧
    allocate_point locked_state "t" "B" ≠ locked_state ∧
    find_node (allocate_point locked_state "t" "B") "t" "B" =
      some ⟨"B", 1, 1, [1], "AND", 1⟩ ∧
    (find_tree (allocate_point locked_state "t" "B") "t").map
      (fun t => t.point_pool.spent) = some 1 := by
  refine ⟨by decide, by decide, by decide, by decide⟩

/-- C1 (amended): whenever `can_allocate_point` rejects for any reason other
than "Prerequisites not met" — missing tree or node, rank already at max, or
insufficient points — `allocate_point` returns the input state unchanged.
(The prerequisite rejection alone is not enforced by `allocate_point`; it is
enforced by the play-mode click handler, which consults `can_allocate_point`
before dispatching.) -/
theorem C1_allocate_rejects (s : State) (tid nid : String)
    (hcan : (can_allocate_point s tid nid).can_allocate = false)
    (hreason : (can_allocate_point s tid nid).reason ≠ some "Prerequisites not met") :
    allocate_point s tid nid = s := by
  unfold can_allocate_point at hcan hreason
  unfold allocate_point
  cases hfind : find_tree s tid with
  | none => rfl
  | some tree =>
    simp only [hfind] at hcan hreason ⊢
    cases hnode : tree.nodes.find? (fun n => n.id == nid) with
    | none =>
      simp only [find_node, hfind, hnode] at hcan hreason ⊢
    | some node =>
      simp only [find_node, hfind, hnode] at hcan hreason ⊢
      by_cases hmax : node.current_rank ≥ node.max_rank
      · rw [if_pos hmax]
      · rw [if_neg hmax]
        by_cases hcost : tree.point_pool.total - tree.point_pool.spent <
            node.cost_per_rank.getD (min node.current_rank (node.cost_per_rank.length - 1)) 0
        · rw [if_pos hcost]
        · exfalso
          have hcost' : ¬tree.point_pool.total - tree.point_pool.spent <
              get_allocation_cost node := hcost
          by_cases hmode : s.ui_state.mode = "edit"
          · rw [if_pos hmode] at hcan
            rw [if_neg hmax, if_neg hcost'] at hcan
            cases hcan
          · rw [if_neg hmode] at hcan hreason
            have hstat : get_node_status s tid nid =
                (if ¬check_prerequisites s tid nid = true then NodeStatus.locked
                 else if node.current_rank = 0 then NodeStatus.unlockable
                 else if node.current_rank ≥ node.max_rank then NodeStatus.maxed
                 else NodeStatus.active) := by
              unfold get_node_status
              simp only [hfind, find_node, hnode]
            rw [hstat] at hcan hreason
            by_cases hck : check_prerequisites s tid nid = true
            · simp only [hck, not_true, if_false, Bool.not_eq_true, not_true_eq_false] at hcan hreason
              by_cases hr0 : node.current_rank = 0
              · simp only [hr0, if_pos, if_true, reduceIte] at hcan
                rw [if_neg hcost'] at hcan
                cases hcan
              · simp only [hr0, hmax, if_neg, if_false, Bool.false_eq_true, reduceIte] at hcan
                rw [if_neg hcost'] at hcan
                cases hcan
            · simp only [hck, not_false_iff, if_pos, reduceIte, not_false_eq_true, if_true] at hreason
              exact hreason rfl

/-- Witness for the amended C1: asking to allocate to the non-existent node
`"Z"` is rejected with "Node not found" and `allocate_point` is a no-op. -/
theorem C1_allocate_rejects_witness :
    allocate_point locked_state "t" "Z" = locked_state :=
  C1_allocate_rejects locked_state "t" "Z" (by decide) (by decide)

-- ===========================================================================
-- C4: SUM semantics
-- ===========================================================================

/-- Rewrites every connection's `required_rank` (of every tree) through `f`,
leaving everything else in the state unchanged; used to express that a
computation never consults the per-edge `required_rank`. -/
def map_required_rank (f : Connection → Nat) (s : State) : State :=
  { s with project := { s.project with trees := s.project.trees.map (fun t =>
      { t with connections := t.connections.map (fun c => { c with required_rank := f c }) }) } }

theorem find_tree_map_required (f : Connection → Nat) (s : State) (tid : String) :
    find_tree (map_required_rank f s) tid = (find_tree s tid).map (fun t =>
      { t with connections := t.connections.map (fun c => { c with required_rank := f c }) }) := by
  unfold find_tree map_required_rank
  rw [List.find?_map]
  rfl

theorem find_node_map_required (f : Connection → Nat) (s : State) (tid nid : String) :
    find_node (map_required_rank f s) tid nid = find_node s tid nid := by
  unfold find_node
  rw [find_tree_map_required]
  cases find_tree s tid with
  | none => rfl
  | some tree => rfl

theorem sum_incoming_map_required (f : Connection → Nat) (s : State) (tid : String)
    (L : List Connection) :
    sum_incoming_rank (map_required_rank f s) tid
      (L.map (fun c => { c with required_rank := f c })) = sum_incoming_rank s tid L := by
  induction L with
  | nil => rfl
  | cons c cs ih =>
    simp only [List.map_cons, sum_incoming_rank]
    rw [ih, find_node_map_required]

/-- Witness state for the spec's concrete SUM example: `C` has SUM logic with
threshold 3, fed by `D` (rank 2) and `E` (rank 1). -/
def sum_state : State :=
  ⟨⟨⟨true, false⟩,
    [⟨"t", ⟨10, 0⟩,
      [⟨"D", 3, 2, [1], "AND", 1⟩, ⟨"E", 3, 1, [1], "AND", 1⟩, ⟨"C", 1, 0, [1], "SUM", 3⟩],
      [⟨"c1", "D", "C", 1, none⟩, ⟨"c2", "E", "C", 1, none⟩]⟩]⟩,
   ⟨"play"⟩⟩

/-- C4 (counterexample to the claim as stated): node `C` of `sum_zero_state`
has SUM logic with a stored `prerequisite_threshold` of `0`.  The sum of the
source ranks (0) is ≥ the stored threshold (0), yet `check_prerequisites`
returns `false`, because the source evaluates
`node.prerequisite_threshold || 1` and a zero threshold is JS-falsy. -/
theorem C4_counterexample :
    check_prerequisites sum_zero_state "t" "C" = false ∧
    find_node sum_zero_state "t" "C" = some ⟨"C", 1, 0, [1], "SUM", 0⟩ ∧
    sum_incoming_rank sum_zero_state "t" [⟨"c1", "D", "C", 1, none⟩] ≥
      (⟨"C", 1, 0, [1], "SUM", 0⟩ : Node).prerequisite_threshold := by
  refine ⟨by decide, by decide, by decide⟩

/-- C4 (amended): for a node with SUM logic, a node with no incoming
connections is always satisfied; with incoming connections,
`check_prerequisites` is true iff the sum of the existing source nodes'
ranks reaches `max 1 prerequisite_threshold` (a zero threshold is JS-falsy
and treated as 1); and the per-edge `required_rank` is never consulted —
rewriting every connection's `required_rank` arbitrarily leaves the result
unchanged. -/
theorem C4_sum_semantics (s : State) (tid nid : String) (tree : Tree) (node : Node)
    (hfind : find_tree s tid = some tree)
    (hnode : find_node s tid nid = some node)
    (hlogic : node.prerequisite_logic = "SUM") :
    (tree.connections.filter (fun c => c.to_node_id == nid) = [] →
      check_prerequisites s tid nid = true) ∧
    (tree.connections.filter (fun c => c.to_node_id == nid) ≠ [] →
      (check_prerequisites s tid nid = true ↔
        sum_incoming_rank s tid (tree.connections.filter (fun c => c.to_node_id == nid)) ≥
          max 1 node.prerequisite_threshold)) ∧
    (∀ f : Connection → Nat,
      check_prerequisites (map_required_rank f s) tid nid = check_prerequisites s tid nid) := by
  have hnode' : tree.nodes.find? (fun n => n.id == nid) = some node := by
    unfold find_node at hnode
    simpa [hfind] using hnode
  have heff : (if node.prerequisite_threshold = 0 then 1 else node.prerequisite_threshold) =
      max 1 node.prerequisite_threshold := by
    by_cases h : node.prerequisite_threshold = 0
    · simp [h]
    · simp [h]
      omega
  refine ⟨?_, ?_, ?_⟩
  · intro hempty
    unfold check_prerequisites
    simp [hfind, hempty]
  · intro hne
    unfold check_prerequisites
    simp only [hfind, hnode, hlogic]
    rw [if_neg (by simpa [List.isEmpty_iff] using hne)]
    rw [heff]
    simp [decide_eq_true_iff]
  · intro f
    have hfilter : (tree.connections.map (fun c => { c with required_rank := f c })).filter
        (fun c => c.to_node_id == nid) =
        (tree.connections.filter (fun c => c.to_node_id == nid)).map
          (fun c => { c with required_rank := f c }) := by
      rw [List.filter_map]
      rfl
    have hisempty : ∀ (L : List Connection),
        (L.map (fun c => { c with required_rank := f c })).isEmpty = L.isEmpty := by
      intro L
      cases L <;> rfl
    have hn2 : find_node (map_required_rank f s) tid nid = some node := by
      rw [find_node_map_required]
      exact hnode
    unfold check_prerequisites
    rw [find_tree_map_required, hfind]
    simp only [Option.map_some']
    rw [hfilter, hisempty]
    by_cases hempty : tree.connections.filter (fun c => c.to_node_id == nid) = []
    · simp [hempty]
    · rw [if_neg (by simpa [List.isEmpty_iff] using hempty),
        if_neg (by simpa [List.isEmpty_iff] using hempty)]
      simp only [hn2, hnode]
      simp only [hlogic]
      simp only [String.reduceEq, if_false, Bool.false_eq_true, reduceIte]
      rw [sum_incoming_map_required]

/-- Witness for the amended C4 at `sum_state`: ranks 2 + 1 reach the
threshold 3, so `C` is satisfied. -/
theorem C4_sum_semantics_witness : check_prerequisites sum_state "t" "C" = true :=
  ((C4_sum_semantics sum_state "t" "C"
      ⟨"t", ⟨10, 0⟩,
        [⟨"D", 3, 2, [1], "AND", 1⟩, ⟨"E", 3, 1, [1], "AND", 1⟩, ⟨"C", 1, 0, [1], "SUM", 3⟩],
        [⟨"c1", "D", "C", 1, none⟩, ⟨"c2", "E", "C", 1, none⟩]⟩
      ⟨"C", 1, 0, [1], "SUM", 3⟩ rfl rfl rfl).2.1 (by decide)).mpr (by decide)

-- ===========================================================================
-- C5: malformed prerequisite_logic strings
-- ===========================================================================

/-- C5 (counterexample to the claim as stated): node `Y` of `xor_state` has
the unrecognized logic string `"XOR"` and one incoming connection whose
source is below its `required_rank`, yet `check_prerequisites` returns `true`
(the source's trailing `return true` fall-through) and the node's status is
UNLOCKABLE, not the conservative LOCKED the claim requires. -/
theorem C5_counterexample :
    check_prerequisites xor_state "t" "Y" = true ∧
    get_node_status xor_state "t" "Y" = NodeStatus.unlockable ∧
    is_connection_satisfied xor_state "t" ⟨"c1", "X", "Y", 1, none⟩ = false := by
  refine ⟨by decide, by decide, by decide⟩

/-- C5 (amended): a node whose `prerequisite_logic` is a non-empty string
other than `AND`/`OR`/`SUM` and which has at least one incoming connection is
treated as satisfied — `check_prerequisites` falls through to `return true`,
so `get_node_status` never reports LOCKED for it.  (An empty logic string is
JS-falsy and defaults to `"AND"` instead.) -/
theorem C5_malformed_logic_satisfied (s : State) (tid nid : String) (tree : Tree) (node : Node)
    (hfind : find_tree s tid = some tree)
    (hnode : find_node s tid nid = some node)
    (hand : node.prerequisite_logic ≠ "AND")
    (hor : node.prerequisite_logic ≠ "OR")
    (hsum : node.prerequisite_logic ≠ "SUM")
    (hemptys : node.prerequisite_logic ≠ "")
    (hinc : tree.connections.filter (fun c => c.to_node_id == nid) ≠ []) :
    check_prerequisites s tid nid = true ∧ get_node_status s tid nid ≠ NodeStatus.locked := by
  have hcheck : check_prerequisites s tid nid = true := by
    unfold check_prerequisites
    simp only [hfind, hnode]
    rw [if_neg (by simpa [List.isEmpty_iff] using hinc)]
    rw [if_neg hemptys, if_neg hand, if_neg hor, if_neg hsum]
  refine ⟨hcheck, ?_⟩
  unfold get_node_status
  simp only [hfind, hnode, hcheck, not_true, if_false, Bool.not_eq_true,
    not_true_eq_false, Bool.false_eq_true, reduceIte]
  split
  · decide
  · split
    · decide
    · decide

/-- Witness for the amended C5 at `xor_state`. -/
theorem C5_malformed_logic_satisfied_witness :
    check_prerequisites xor_state "t" "Y" = true ∧
    get_node_status xor_state "t" "Y" ≠ NodeStatus.locked :=
  C5_malformed_logic_satisfied xor_state "t" "Y"
    ⟨"t", ⟨10, 0⟩,
      [⟨"X", 1, 0, [1], "AND", 1⟩, ⟨"Y", 1, 0, [1], "XOR", 1⟩],
      [⟨"c1", "X", "Y", 1, none⟩]⟩
    ⟨"Y", 1, 0, [1], "XOR", 1⟩
    rfl rfl (by decide) (by decide) (by decide) (by decide) (by decide)

-- ===========================================================================
-- C6: reachability crashes on a dangling connection target
-- ===========================================================================

/-- C6 (failing input): in `dangling_state` the root `A` has an outgoing
connection to the non-existent id `"ghost"`.  The BFS of
`check_tree_reachability` dereferences `target_node.prerequisite_logic`
without a null check, so instead of returning an `unreachable` list the call
raises a `TypeError` (modelled as `Except.error`), contradicting the spec's
no-crash guarantee. -/
theorem C6_reachability_crashes :
    check_tree_reachability dangling_state "t" =
      Except.error "TypeError: target_node is null" := rfl

-- ===========================================================================
-- C9: cycle detection
-- ===========================================================================

/-- Edge-chain predicate: consecutive elements are connected by the adjacency
relation (the `from → to` connection graph of a tree). -/
def is_chain (adjf : String → List String) : List String → Bool
  | [] => true
  | [_] => true
  | a :: b :: rest => (adjf a).contains b && is_chain adjf (b :: rest)

/-- A non-empty edge chain whose last element has an edge back to its head:
an actual directed cycle in the adjacency relation. -/
def is_cycle_list (adjf : String → List String) : List String → Bool
  | [] => false
  | a :: rest =>
    is_chain adjf (a :: rest) &&
      (match (a :: rest).getLast? with
       | some z => (adjf z).contains a
       | none => false)

theorem is_chain_snoc {adjf : String → List String} :
    ∀ {path : List String} {z n : String}, path.getLast? = some z →
      is_chain adjf path = true → (adjf z).contains n = true →
      is_chain adjf (path ++ [n]) = true := by
  intro path
  induction path with
  | nil => intro z n hz; cases hz
  | cons a rest ih =>
    intro z n hz hch hn
    cases rest with
    | nil =>
      cases hz
      simpa [is_chain] using hn
    | cons b rest' =>
      rw [List.getLast?_cons_cons] at hz
      simp only [is_chain, Bool.and_eq_true] at hch
      have := ih hz hch.2 hn
      simp only [List.cons_append, is_chain, Bool.and_eq_true]
      exact ⟨hch.1, this⟩

theorem is_chain_drop {adjf : String → List String} :
    ∀ (k : Nat) {l : List String}, is_chain adjf l = true →
      is_chain adjf (l.drop k) = true := by
  intro k
  induction k with
  | zero => intro l h; simpa using h
  | succ k ih =>
    intro l h
    cases l with
    | nil => simp [is_chain]
    | cons a rest =>
      rw [List.drop_succ_cons]
      refine ih ?_
      cases rest with
      | nil => rfl
      | cons b rest' =>
        simp only [is_chain, Bool.and_eq_true] at h
        exact h.2

theorem head?_drop_idx_of :
    ∀ {l : List String} {n : String}, l.contains n = true →
      (l.drop (idx_of n l)).head? = some n := by
  intro l
  induction l with
  | nil => intro n h; cases h
  | cons a rest ih =>
    intro n h
    by_cases heq : a = n
    · subst heq
      simp [idx_of]
    · have ha : (a == n) = false := beq_eq_false_iff_ne.mpr heq
      have hna : (n == a) = false := beq_eq_false_iff_ne.mpr (Ne.symm heq)
      simp only [List.contains_cons, hna, Bool.false_or] at h
      simp only [idx_of, ha, Bool.false_eq_true, if_false, reduceIte]
      rw [List.drop_succ_cons]
      exact ih h

theorem getLast?_drop :
    ∀ (k : Nat) {l : List String}, l.drop k ≠ [] →
      (l.drop k).getLast? = l.getLast? := by
  intro k
  induction k with
  | zero => intro l h; rfl
  | succ k ih =>
    intro l h
    cases l with
    | nil => simp at h
    | cons a rest =>
      rw [List.drop_succ_cons] at h ⊢
      rw [ih h]
      cases hr : rest with
      | nil =>
        subst hr
        simp at h
      | cons b rest' =>
        subst hr
        rw [List.getLast?_cons_cons]

/-- The slice extracted when the DFS meets a node already on its recursion
stack is a genuine cycle: the stack is an edge chain, the slice starts at the
met node, and the current node (the stack's last element) has an edge back to
it. -/
theorem cycle_of_found {adjf : String → List String} {path : List String} {z n : String}
    (hz : path.getLast? = some z) (hch : is_chain adjf path = true)
    (hp : path.contains n = true) (hn : (adjf z).contains n = true) :
    is_cycle_list adjf (path.drop (idx_of n path)) = true := by
  have hhead := head?_drop_idx_of hp
  cases hd : path.drop (idx_of n path) with
  | nil => rw [hd] at hhead; cases hhead
  | cons a rest =>
    rw [hd] at hhead
    have ha : a = n := by
      simpa using hhead
    have hchain : is_chain adjf (a :: rest) = true := by
      rw [← hd]; exact is_chain_drop _ hch
    have hlast : (a :: rest).getLast? = some z := by
      rw [← hd]
      refine (getLast?_drop _ ?_).trans hz
      rw [hd]; exact List.cons_ne_nil a rest
    subst ha
    simp only [is_cycle_list, hchain, Bool.true_and, hlast]
    exact hn

/-- Soundness of the DFS at every fuel level: any cycle it reports is a real
cycle of the adjacency relation.  (Fuel exhaustion reports nothing, so it
cannot hurt soundness.) -/
theorem dfs_sound (adjf : String → List String) :
    ∀ fuel : Nat,
      (∀ visited path node_id c,
        is_chain adjf (path ++ [node_id]) = true →
        (dfs_visit adjf fuel visited path node_id).2 = some c →
        is_cycle_list adjf c = true) ∧
      (∀ visited path ns c z,
        path.getLast? = some z →
        is_chain adjf path = true →
        (∀ m ∈ ns, (adjf z).contains m = true) →
        (dfs_children adjf fuel visited path ns).2 = some c →
        is_cycle_list adjf c = true) := by
  intro fuel
  induction fuel with
  | zero =>
    constructor
    · intro visited path node_id c hch h
      simp [dfs_visit] at h
    · intro visited path ns c z hz hch hns h
      cases ns with
      | nil => simp [dfs_children] at h
      | cons n rest => simp [dfs_children] at h
  | succ fuel ih =>
    obtain ⟨ihv, ihc⟩ := ih
    constructor
    · intro visited path node_id c hch h
      rw [dfs_visit] at h
      refine ihc (node_id :: visited) (path ++ [node_id]) (adjf node_id) c node_id
        (List.getLast?_concat path) hch ?_ h
      intro m hm
      exact List.elem_iff.mpr hm
    · intro visited path ns c z hz hch hns h
      cases ns with
      | nil => simp [dfs_children] at h
      | cons n rest =>
        rw [dfs_children] at h
        by_cases hv : visited.contains n = true
        · rw [if_pos hv] at h
          by_cases hp : path.contains n = true
          · rw [if_pos hp] at h
            have hcc : path.drop (idx_of n path) = c := by simpa using h
            subst hcc
            exact cycle_of_found hz hch hp (hns n (List.mem_cons_self n rest))
          · rw [if_neg hp] at h
            exact ihc visited path rest c z hz hch
              (fun m hm => hns m (List.mem_cons_of_mem n hm)) h
        · rw [if_neg hv] at h
          cases hrec : dfs_visit adjf fuel visited path n with
          | mk v' res =>
            cases res with
            | some c' =>
              rw [hrec] at h
              have hcc : c' = c := by simpa using h
              subst hcc
              refine ihv visited path n c' ?_ ?_
              · exact is_chain_snoc hz hch (hns n (List.mem_cons_self n rest))
              · rw [hrec]
            | none =>
              rw [hrec] at h
              exact ihc v' path rest c z hz hch
                (fun m hm => hns m (List.mem_cons_of_mem n hm)) h

theorem detect_cycle_go_sound (adjf : String → List String) (fuel : Nat) :
    ∀ (visited : List String) (nodes : List Node) (c : List String),
      detect_cycle_go adjf fuel visited nodes = some c →
      is_cycle_list adjf c = true := by
  intro visited nodes
  induction nodes generalizing visited with
  | nil => intro c h; cases h
  | cons nd rest ih =>
    intro c h
    rw [detect_cycle_go] at h
    by_cases hv : visited.contains nd.id = true
    · rw [if_pos hv] at h
      exact ih visited c h
    · rw [if_neg hv] at h
      cases hrec : dfs_visit adjf fuel visited [] nd.id with
      | mk v' res =>
        cases res with
        | some c' =>
          rw [hrec] at h
          have hcc : c' = c := by simpa using h
          subst hcc
          refine (dfs_sound adjf fuel).1 visited [] nd.id c' ?_ ?_
          · rfl
          · rw [hrec]
        | none =>
          rw [hrec] at h
          exact ih v' c h

/-- Any cycle reported by `detect_cycle` is a real cycle of the tree's
`from → to` connection graph. -/
theorem detect_cycle_sound (tree : Tree) (c : List String)
    (h : detect_cycle tree = some c) : is_cycle_list (adjacency tree) c = true :=
  detect_cycle_go_sound (adjacency tree) _ [] tree.nodes c h

/-- C9: on the tree with connections `A → B`, `B → C`, `C → A`,
`validate_tree` reports exactly one `ERR_CYCLIC_DEPENDENCY` whose cycle
witness is `[A, B, C]` in traversal order; in general every cycle
`detect_cycle` returns is a sub-path of the DFS stack that forms a real
directed cycle of the connection graph, and on acyclic graphs `detect_cycle`
returns `none`. -/
theorem C9_cycle_detection :
    (validate_tree cycle_state "t").errors = [VError.cyclic_dependency ["A", "B", "C"]] ∧
    (∀ tree c, detect_cycle tree = some c → is_cycle_list (adjacency tree) c = true) ∧
    (∀ tree, (∀ c, is_cycle_list (adjacency tree) c = false) → detect_cycle tree = none) := by
  refine ⟨by decide, detect_cycle_sound, ?_⟩
  intro tree hacyc
  cases h : detect_cycle tree with
  | none => rfl
  | some c =>
    have hc := detect_cycle_sound tree c h
    rw [hacyc c] at hc
    cases hc

/-- Witness for C9: the reported cycle `[A, B, C]` of the concrete cyclic
tree is a real cycle of its adjacency relation. -/
theorem C9_cycle_detection_witness :
    is_cycle_list
      (adjacency ⟨"t", ⟨10, 0⟩,
        [⟨"A", 1, 0, [1], "AND", 1⟩, ⟨"B", 1, 0, [1], "AND", 1⟩, ⟨"C", 1, 0, [1], "AND", 1⟩],
        [⟨"c1", "A", "B", 1, none⟩, ⟨"c2", "B", "C", 1, none⟩, ⟨"c3", "C", "A", 1, none⟩]⟩)
      ["A", "B", "C"] = true :=
  C9_cycle_detection.2.1
    ⟨"t", ⟨10, 0⟩,
      [⟨"A", 1, 0, [1], "AND", 1⟩, ⟨"B", 1, 0, [1], "AND", 1⟩, ⟨"C", 1, 0, [1], "AND", 1⟩],
      [⟨"c1", "A", "B", 1, none⟩, ⟨"c2", "B", "C", 1, none⟩, ⟨"c3", "C", "A", 1, none⟩]⟩
    ["A", "B", "C"] (by decide)

-- ===========================================================================
-- C10: add_connection guards and invariants
-- ===========================================================================

/-- At most one connection per ordered `(from, to)` pair. -/
def tree_pairs_unique (tree : Tree) : Prop :=
  tree.connections.Pairwise (fun c1 c2 =>
    ¬(c1.from_node_id = c2.from_node_id ∧ c1.to_node_id = c2.to_node_id))

/-- Every connection's endpoints name nodes present in the tree. -/
def tree_endpoints_exist (tree : Tree) : Prop :=
  ∀ c ∈ tree.connections,
    tree.nodes.any (fun n => n.id == c.from_node_id) = true ∧
    tree.nodes.any (fun n => n.id == c.to_node_id) = true

/-- C10: `add_connection` returns the input state unchanged whenever the tree
already holds a connection with the same ordered `(from, to)` pair or either
endpoint id names no node of the tree; consequently it preserves the
invariants that a tree holds at most one connection per ordered pair and
that no connection has a dangling endpoint. -/
theorem C10_add_connection_guards (s : State) (tid fresh_id : String)
    (opts : ConnectionOptions) :
    (∀ tree, find_tree s tid = some tree →
      (tree.connections.any (fun c =>
          c.from_node_id == opts.from_node_id ∧ c.to_node_id == opts.to_node_id) = true ∨
        tree.nodes.any (fun n => n.id == opts.from_node_id) = false ∨
        tree.nodes.any (fun n => n.id == opts.to_node_id) = false) →
      add_connection s tid fresh_id opts = s) ∧
    ((∀ tree ∈ s.project.trees, tree_pairs_unique tree ∧ tree_endpoints_exist tree) →
      ∀ tree' ∈ (add_connection s tid fresh_id opts).project.trees,
        tree_pairs_unique tree' ∧ tree_endpoints_exist tree') := by
  constructor
  · intro tree hfind hbad
    unfold add_connection
    by_cases hids : opts.from_node_id = "" ∨ opts.to_node_id = ""
    · rw [if_pos hids]
    · rw [if_neg hids]
      simp only [hfind]
      by_cases hmiss : ¬tree.nodes.any (fun n => n.id == opts.from_node_id) = true ∨
          ¬tree.nodes.any (fun n => n.id == opts.to_node_id) = true
      · rw [if_pos hmiss]
      · rw [if_neg hmiss]
        have hdup : tree.connections.any (fun c =>
            c.from_node_id == opts.from_node_id ∧ c.to_node_id == opts.to_node_id) = true := by
          rcases hbad with h | h | h
          · exact h
          · exact absurd (Or.inl (by simp [h])) hmiss
          · exact absurd (Or.inr (by simp [h])) hmiss
        rw [if_pos hdup]
  · intro hgood tree' hmem'
    unfold add_connection at hmem'
    by_cases hids : opts.from_node_id = "" ∨ opts.to_node_id = ""
    · rw [if_pos hids] at hmem'
      exact hgood tree' hmem'
    · rw [if_neg hids] at hmem'
      cases hfind : find_tree s tid with
      | none =>
        rw [hfind] at hmem'
        exact hgood tree' hmem'
      | some tree =>
        simp only [hfind] at hmem'
        by_cases hmiss : ¬tree.nodes.any (fun n => n.id == opts.from_node_id) = true ∨
            ¬tree.nodes.any (fun n => n.id == opts.to_node_id) = true
        · rw [if_pos hmiss] at hmem'
          exact hgood tree' hmem'
        · rw [if_neg hmiss] at hmem'
          push_neg at hmiss
          obtain ⟨hfrom, hto⟩ := hmiss
          by_cases hdup : tree.connections.any (fun c =>
              c.from_node_id == opts.from_node_id ∧ c.to_node_id == opts.to_node_id) = true
          · rw [if_pos hdup] at hmem'
            exact hgood tree' hmem'
          · rw [if_neg hdup] at hmem'
            simp only [set_first_tree] at hmem'
            rcases mem_replace_first hmem' with hold | ⟨told, htold, _, heq⟩
            · exact hgood tree' hold
            · subst heq
              have htree_mem : tree ∈ s.project.trees := List.mem_of_find?_eq_some hfind
              obtain ⟨hpair, hend⟩ := hgood tree htree_mem
              have hnodup : ∀ c ∈ tree.connections,
                  ¬(c.from_node_id = opts.from_node_id ∧ c.to_node_id = opts.to_node_id) := by
                intro c hc hcontra
                apply hdup
                rw [List.any_eq_true]
                exact ⟨c, hc, by simp [hcontra.1, hcontra.2]⟩
              obtain ⟨ofrom, oto, olog, orr⟩ := opts
              have hconn : ∀ conn,
                  conn.from_node_id = ofrom → conn.to_node_id = oto →
                  tree_pairs_unique { tree with connections := tree.connections ++ [conn] } ∧
                  tree_endpoints_exist { tree with connections := tree.connections ++ [conn] } := by
                intro conn hcf hct
                constructor
                · unfold tree_pairs_unique
                  rw [List.pairwise_append]
                  refine ⟨hpair, List.pairwise_singleton _ _, ?_⟩
                  intro c1 hc1 c2 hc2 hcontra
                  rw [List.mem_singleton] at hc2
                  subst hc2
                  rw [hcf, hct] at hcontra
                  exact hnodup c1 hc1 hcontra
                · unfold tree_endpoints_exist
                  intro c hc
                  rcases List.mem_append.mp hc with hc | hc
                  · exact hend c hc
                  · rw [List.mem_singleton] at hc
                    subst hc
                    rw [hcf, hct]
                    exact ⟨hfrom, hto⟩
              cases olog with
              | none =>
                cases orr with
                | none => exact hconn _ rfl rfl
                | some r => exact hconn _ rfl rfl
              | some l =>
                by_cases hl : l = "AND" ∨ l = "OR"
                · cases orr with
                  | none =>
                    refine hconn _ ?_ ?_ <;> simp [hl]
                  | some r =>
                    refine hconn _ ?_ ?_ <;> simp [hl]
                · cases orr with
                  | none =>
                    refine hconn _ ?_ ?_ <;> simp [hl]
                  | some r =>
                    refine hconn _ ?_ ?_ <;> simp [hl]

/-- Witness for C10: adding a second `A → B` connection to `locked_state`
(which already holds one) is rejected with no mutation. -/
theorem C10_add_connection_guards_witness :
    add_connection locked_state "t" "c_new" ⟨"A", "B", none, none⟩ = locked_state :=
  (C10_add_connection_guards locked_state "t" "c_new" ⟨"A", "B", none, none⟩).1
    ⟨"t", ⟨10, 0⟩,
      [⟨"A", 1, 0, [1], "AND", 1⟩, ⟨"B", 1, 0, [1], "AND", 1⟩],
      [⟨"c1", "A", "B", 1, none⟩]⟩
    rfl (Or.inl (by decide))

end SkillTree
